import Mathlib

/-!
Verification development for `src/scraper/scrape_concorrencia.py`.

The Python source is shallowly embedded: Python strings are modelled as
`String` (with the character-list versions of the core text transforms
exposed on `List Char` for proofs), BeautifulSoup tags are modelled by the
inductive `Node`, and the network boundary (`requests.get` + parsing) is
modelled by a caller-supplied `fetch : String → Option Node` function,
`none` standing for any fetch/parse failure (the source catches every
exception around its detail-page fetch and returns `[]`).
-/

set_option maxRecDepth 100000

/-- Whitespace characters recognised by the model of Python's `\s` /
`str.strip()` / `str.split()` (ASCII whitespace). -/
def isPySpace (c : Char) : Bool :=
  c = ' ' || c = '\t' || c = '\n' || c = '\r' || c = '\x0b' || c = '\x0c'

/-- Strip leading and trailing whitespace, modelling Python `str.strip()`. -/
def stripWs (l : List Char) : List Char :=
  (l.dropWhile isPySpace).rdropWhile isPySpace

/-- Helper of `collapseWs`: the Boolean records whether the previous input
character was whitespace (so a run emits a single space). -/
def collapseAux : List Char → Bool → List Char
  | [], _ => []
  | c :: cs, prevWs =>
    if isPySpace c then
      if prevWs then collapseAux cs true else ' ' :: collapseAux cs true
    else c :: collapseAux cs false

/-- Model of `re.sub(r"\s+", " ", s)`: every maximal whitespace run becomes
one space. -/
def collapseWs (l : List Char) : List Char := collapseAux l false

/-- Model of Python `str.rstrip(" .")`. -/
def rstripDotSpace (l : List Char) : List Char :=
  l.rdropWhile (fun c => c = ' ' || c = '.')

/-- Character-list version of `sanitize_title`:
`re.sub(r"\s+", " ", (text or "").strip()).rstrip(" .")`. -/
def sanitize_titleL (l : List Char) : List Char :=
  rstripDotSpace (collapseWs (stripWs l))

/-- Embedding of `sanitize_title` (scrape_concorrencia.py line 60). -/
def sanitize_title (s : String) : String :=
  ⟨sanitize_titleL s.data⟩

/-- Split a character list on whitespace runs, dropping empty pieces:
model of Python `str.split()` with no argument. -/
def splitWsAux (acc : List Char) : List Char → List (List Char)
  | [] => if acc = [] then [] else [acc.reverse]
  | c :: cs =>
    if isPySpace c then
      if acc = [] then splitWsAux [] cs else acc.reverse :: splitWsAux [] cs
    else splitWsAux (c :: acc) cs

/-- Model of Python `str.split()` (split on any whitespace, drop empties). -/
def splitWs (l : List Char) : List (List Char) := splitWsAux [] l

/-- Join word lists with single spaces, modelling `" ".join(words)`. -/
def joinSpace : List (List Char) → List Char
  | [] => []
  | [w] => w
  | w :: ws => w ++ ' ' :: joinSpace ws

/-- Model of Python `str.lower()` (ASCII case folding; the characters the
source compares are ASCII or already lower-case). -/
def lowerL (l : List Char) : List Char := l.map Char.toLower

/-- Model of the Python substring test `needle in hay`. -/
def containsSub (needle hay : List Char) : Bool := decide (needle <:+: hay)

/-- A parsed markup tree: the capability surface the scraper uses from
BeautifulSoup (tag name, attributes, children, text content). -/
inductive Node where
  | elem (tag : String) (attrs : List (String × String)) (children : List Node)
  | text (s : String)

mutual

/-- Decidable structural equality of nodes, modelling BeautifulSoup's
`Tag.__eq__` (two tags are equal when they render the same markup). -/
def Node.decEq : (a b : Node) → Decidable (a = b)
  | .text s, .text t =>
    if h : s = t then .isTrue (by rw [h]) else .isFalse (fun hh => h (by cases hh; rfl))
  | .text _, .elem _ _ _ => .isFalse (fun h => Node.noConfusion h)
  | .elem _ _ _, .text _ => .isFalse (fun h => Node.noConfusion h)
  | .elem t1 a1 c1, .elem t2 a2 c2 =>
    if h1 : t1 = t2 then
      if h2 : a1 = a2 then
        match Node.decEqList c1 c2 with
        | .isTrue h3 => .isTrue (by rw [h1, h2, h3])
        | .isFalse h3 => .isFalse (fun hh => h3 (by cases hh; rfl))
      else .isFalse (fun hh => h2 (by cases hh; rfl))
    else .isFalse (fun hh => h1 (by cases hh; rfl))

/-- Decidable structural equality of node lists. -/
def Node.decEqList : (a b : List Node) → Decidable (a = b)
  | [], [] => .isTrue rfl
  | [], _ :: _ => .isFalse (fun h => List.noConfusion h)
  | _ :: _, [] => .isFalse (fun h => List.noConfusion h)
  | x :: xs, y :: ys =>
    match Node.decEq x y, Node.decEqList xs ys with
    | .isTrue h1, .isTrue h2 => .isTrue (by rw [h1, h2])
    | .isFalse h1, _ => .isFalse (fun hh => h1 (by cases hh; rfl))
    | _, .isFalse h2 => .isFalse (fun hh => h2 (by cases hh; rfl))

end

instance : DecidableEq Node := Node.decEq

mutual

/-- The node itself (when it matches) followed by its matching descendants,
preorder. -/
def findAllN (p : Node → Bool) : Node → List Node
  | .text _ => []
  | .elem t a cs =>
    (if p (.elem t a cs) then [Node.elem t a cs] else []) ++ findAllL p cs

/-- All matching nodes of a list of trees, in document (preorder) order,
matching BeautifulSoup's `find_all` traversal. -/
def findAllL (p : Node → Bool) : List Node → List Node
  | [] => []
  | n :: ns => findAllN p n ++ findAllL p ns

end

/-- `tag.find_all(pred)`: matching descendants of one node, preorder. -/
def findAllDesc (p : Node → Bool) : Node → List Node
  | .text _ => []
  | .elem _ _ cs => findAllL p cs

/-- `tag.find(pred)`: first matching descendant, if any. -/
def findDesc (p : Node → Bool) (n : Node) : Option Node :=
  (findAllDesc p n).head?

/-- Does this node carry one of the given tag names? -/
def isTag (names : List String) : Node → Bool
  | .elem t _ _ => t ∈ names
  | .text _ => false

/-- Attribute lookup, modelling `tag.get(key)`. -/
def getAttr (n : Node) (k : String) : Option String :=
  match n with
  | .elem _ attrs _ => (attrs.find? (fun kv => kv.1 = k)).map (fun kv => kv.2)
  | .text _ => none

mutual

/-- Raw text content of one node with space separators, before
normalization (feeds the model of `get_text(separator=" ", strip=True)`). -/
def rawTextN : Node → List Char
  | .text s => s.data ++ [' ']
  | .elem _ _ cs => rawTextL cs

/-- Raw text content of a list of nodes with space separators. -/
def rawTextL : List Node → List Char
  | [] => []
  | n :: ns => rawTextN n ++ rawTextL ns

end

/-- Embedding of `text_of` (line 64):
`" ".join(el.get_text(separator=" ", strip=True).split())` — all the words
of the node's text content joined by single spaces. -/
def text_of (n : Node) : String :=
  ⟨joinSpace (splitWs (rawTextN n))⟩

/-- The synthesized column names `Col1..ColN` (line 99). -/
def mkCols (n : Nat) : List String :=
  (List.range n).map (fun i => "Col" ++ toString (i + 1))

/-- Maximum row length, modelling `max(len(r) for r in rows)`. -/
def maxRowLen (rows : List (List String)) : Nat :=
  rows.foldl (fun m r => max m r.length) 0

/-- The `<td>`/`<th>` cells of a row, in document order (line 88). -/
def row_cells (tr : Node) : List Node :=
  findAllDesc (isTag ["td", "th"]) tr

/-- One iteration of the row loop of `parse_html_table` (lines 85–95);
`trs0` is the full `trs` list, needed for the `tr == trs[0]` comparison
(BeautifulSoup tag equality is structural). -/
def parse_step (trs0 : List Node) (acc : List String × List (List String)) (tr : Node) :
    List String × List (List String) :=
  if (findDesc (isTag ["th"]) tr).isSome && !(findDesc (isTag ["td"]) tr).isSome then acc
  else
    let tds := row_cells tr
    if tds = [] then acc
    else
      let row := tds.map text_of
      if acc.1 = [] ∧ some tr = trs0.head? then (row, acc.2)
      else (acc.1, acc.2 ++ [row])

/-- The `tbody or table` element whose `tr` descendants are scanned
(line 83). -/
def table_body (table_tag : Node) : Node :=
  (findDesc (isTag ["tbody"]) table_tag).getD table_tag

/-- The `trs` list of `parse_html_table` (line 84). -/
def table_trs (table_tag : Node) : List Node :=
  findAllDesc (isTag ["tr"]) (table_body table_tag)

/-- The header-derived `columns` value before the row loop
(lines 70–80): `thead` cells if a `thead` exists, else the `th` cells of
the first `tr`, else empty. -/
def header_columns (table_tag : Node) : List String :=
  match findDesc (isTag ["thead"]) table_tag with
  | some thead => (findAllDesc (isTag ["th", "td"]) thead).map text_of
  | none =>
    match findDesc (isTag ["tr"]) table_tag with
    | some first_tr =>
      let ths := findAllDesc (isTag ["th"]) first_tr
      if ths ≠ [] then ths.map text_of else []
    | none => []

/-- The `(columns, rows)` state after the row loop of `parse_html_table`,
before the `Col1..ColN` synthesis (lines 69–95). -/
def parse_core (table_tag : Node) : List String × List (List String) :=
  let trs := table_trs table_tag
  trs.foldl (parse_step trs) (header_columns table_tag, [])

/-- Embedding of `parse_html_table` (lines 69–101). -/
def parse_html_table (table_tag : Node) : List String × List (List String) :=
  let res := parse_core table_tag
  if res.1 = [] ∧ res.2 ≠ [] then (mkCols (maxRowLen res.2), res.2)
  else res

/-- A consolidated table record `{"titulo", "columns", "rows"}` as built by
`collect_blocks_from_soup` and `collect_from_detail_page`. -/
structure Block where
  titulo : String
  columns : List String
  rows : List (List String)
deriving DecidableEq

/-- Embedding of `is_button_like` (lines 103–118): an anchor is a
follow-the-button control when its lowercased text contains one of the
verb markers, or its class string contains one of the button class
tokens, or its `role` attribute is `button`. -/
def is_button_like (a : Node) : Bool :=
  match a with
  | .elem "a" _ _ =>
    let txt := lowerL (text_of a).data
    if containsSub "confira".data txt || containsSub "ver".data txt ||
        containsSub "veja".data txt || containsSub "acesse".data txt ||
        containsSub "consulte".data txt then true
    else
      let cl := lowerL ((getAttr a "class").getD "").data
      if containsSub "btn".data cl || containsSub "button".data cl ||
          containsSub "wp-block-button__link".data cl then true
      else lowerL ((getAttr a "role").getD "").data = "button".data
  | _ => false

/-- Modelled from the spec: resolution of a possibly-relative destination
reference against the document's own address (`resolve_url`, lines
120–124, delegates to `urllib.parse.urljoin`, an external collaborator not
part of this repository; absolute references pass through unchanged). -/
def resolve_url (href : String) (base_url : String) : String :=
  if containsSub "://".data href.data then href else base_url ++ href

mutual

/-- Headings (with their following-sibling context) inside one node,
preorder. -/
def headingsCtxN (tags : List String) : Node → List (Node × List Node)
  | .text _ => []
  | .elem _ _ cs => headingsCtx tags cs

/-- All nodes with one of the given tag names occurring in a list of
trees, each paired with the siblings that follow it — the data
`soup.find_all([...])` plus the `h.next_sibling` walk of the source
operate on. Preorder, like `find_all`. -/
def headingsCtx (tags : List String) : List Node → List (Node × List Node)
  | [] => []
  | n :: ns =>
    (if isTag tags n then [(n, ns)] else []) ++ headingsCtxN tags n ++ headingsCtx tags ns

end

/-- Embedding of the sibling walk of `collect_blocks_from_soup`
(lines 246–269): walk the siblings after a heading until the next
`h2`/`h3`; a direct `table` sibling overwrites `found_table`, a nested
table is taken only when `found_table` is still unset; the first
button-like `a[href]` descendant of each sibling overwrites
`button_link`. -/
def scan_siblings (base_url : String) : Option Node → Option String → List Node →
    Option Node × Option String
  | ft, bl, [] => (ft, bl)
  | ft, bl, .text _ :: rest => scan_siblings base_url ft bl rest
  | ft, bl, .elem t a cs :: rest =>
    if t ∈ ["h2", "h3"] then (ft, bl)
    else
      let pn : Node := .elem t a cs
      let ft' := if t = "table" then some pn
        else match findDesc (isTag ["table"]) pn with
          | some m => if ft = none then some m else ft
          | none => ft
      let bl' :=
        match (findAllDesc (fun n => isTag ["a"] n && (getAttr n "href").isSome) pn).find?
            is_button_like with
        | some link => some (resolve_url ((getAttr link "href").getD "") base_url)
        | none => bl
      scan_siblings base_url ft' bl' rest

/-- Embedding of the sibling walk of `collect_from_detail_page`
(lines 319–332): first table (direct, or nested — whichever sibling comes
first), stopping at the next `h1`/`h2`/`h3`. -/
def detail_scan : List Node → Option Node
  | [] => none
  | .text _ :: rest => detail_scan rest
  | .elem t a cs :: rest =>
    if t ∈ ["h1", "h2", "h3"] then none
    else if t = "table" then some (.elem t a cs)
    else match findDesc (isTag ["table"]) (.elem t a cs) with
      | some m => some m
      | none => detail_scan rest

/-- The per-block title rule of `prefix_titles_if_needed` (lines
297–301): fall back to the parent title when the block title is empty,
prefix `"{parent} — {title}"` when the lowercased parent is nonempty and
not a substring of the lowercased title, then `sanitize_title` the
result. -/
def reconcile_title (parent_title : String) (titulo : String) : String :=
  let pt := lowerL parent_title.data
  let t := if titulo = "" then parent_title.data else titulo.data
  let t2 := if pt ≠ [] ∧ ¬ (pt <:+: lowerL t) then parent_title.data ++ ' ' :: '—' :: ' ' :: t
    else t
  ⟨sanitize_titleL t2⟩

/-- Embedding of `prefix_titles_if_needed` (lines 289–302). -/
def prefix_titles_if_needed (parent_title : String) (blocks : List Block) : List Block :=
  blocks.map (fun b => ⟨reconcile_title parent_title b.titulo, b.columns, b.rows⟩)

/-- Embedding of `collect_from_detail_page` (lines 304–364). The network
fetch and parse are external: the argument is the already-fetched parsed
detail document, `none` standing for any fetch/parse failure (the
source's `try`/`except` returns `[]` in that case). -/
def collect_from_detail_page (fetched : Option Node) : List Block :=
  match fetched with
  | none => []
  | some soup =>
    let blocks := (headingsCtxN ["h1", "h2", "h3"] soup).flatMap (fun hs =>
      let titulo := sanitize_title (text_of hs.1)
      match detail_scan hs.2 with
      | some found =>
        let pr := parse_html_table found
        if pr.2 ≠ [] then [⟨titulo, pr.1, pr.2⟩] else []
      | none => [])
    if blocks ≠ [] then blocks
    else
      let all_tables := findAllDesc (isTag ["table"]) soup
      let base_title : Option String :=
        (findDesc (isTag ["h1"]) soup).map (fun h1 => sanitize_title (text_of h1))
      let base := match base_title with
        | some bt => if bt ≠ "" then bt else "Tabela"
        | none => "Tabela"
      all_tables.enum.flatMap (fun it =>
        let pr := parse_html_table it.2
        if pr.2 = [] then []
        else [⟨base ++ " " ++ toString (it.1 + 1), pr.1, pr.2⟩])

/-- The `results.append({"titulo": ..., "columns": cols, "rows": rows})`
step guarded by `if rows:` (lines 283–285). -/
def local_block (titulo : String) (tbl : Node) : List Block :=
  let pr := parse_html_table tbl
  if pr.2 ≠ [] then [⟨titulo, pr.1, pr.2⟩] else []

/-- What one section contributes to the output, given the scan results
(lines 271–285): no table found — nothing (even when a button was found);
table and button — the detail blocks (title-reconciled) when non-empty,
else the local table; table only — the local table. -/
def section_blocks (fetch : String → Option Node) (titulo : String) :
    Option Node → Option String → List Block
  | none, _ => []
  | some tbl, some url =>
    let deep := collect_from_detail_page (fetch url)
    if deep ≠ [] then prefix_titles_if_needed titulo deep
    else local_block titulo tbl
  | some tbl, none => local_block titulo tbl

/-- The body of the per-heading loop of `collect_blocks_from_soup`
(lines 240–285): sanitize the heading text, skip the section when it is
empty, scan the siblings, then contribute blocks. -/
def handle_section (base_url : String) (fetch : String → Option Node)
    (hsec : Node × List Node) : List Block :=
  let titulo := sanitize_title (text_of hsec.1)
  if titulo = "" then []
  else
    let scanned := scan_siblings base_url none none hsec.2
    section_blocks fetch titulo scanned.1 scanned.2

/-- Embedding of `collect_blocks_from_soup` (lines 232–287), with the
detail-page fetching (`requests.get` + parse inside
`collect_from_detail_page`) supplied as the `fetch` capability. -/
def collect_blocks_from_soup (soup : Node) (base_url : String)
    (fetch : String → Option Node) : List Block :=
  (headingsCtxN ["h2", "h3"] soup).flatMap (handle_section base_url fetch)

/-- The payload dict built by `main` (lines 390–395). -/
structure Payload where
  fonte_url : String
  updated_at_iso : String
  updated_at_br : String
  tabelas : List Block

/-- JSON string escaping as performed by `json.dumps(...,
ensure_ascii=False)`, modelled for the escapes that can occur here. -/
def escChar (c : Char) : List Char :=
  if c = '\\' then ['\\', '\\']
  else if c = '"' then ['\\', '"']
  else if c = '\n' then ['\\', 'n']
  else if c = '\t' then ['\\', 't']
  else if c = '\r' then ['\\', 'r']
  else [c]

/-- A JSON string literal. -/
def jsonStr (s : String) : String := "\"" ++ ⟨s.data.flatMap escChar⟩ ++ "\""

/-- A JSON array from already-serialized items (default `json.dumps`
item separator `", "`). -/
def jsonArr (items : List String) : String := "[" ++ String.intercalate ", " items ++ "]"

/-- One consolidated table as serialized by
`json.dumps(..., ensure_ascii=False, sort_keys=True)`: keys in sorted
order `columns < rows < titulo`. -/
def jsonBlock (b : Block) : String :=
  "\x7b\"columns\": " ++ jsonArr (b.columns.map jsonStr) ++ ", \"rows\": " ++
    jsonArr (b.rows.map (fun r => jsonArr (r.map jsonStr))) ++ ", \"titulo\": " ++
    jsonStr b.titulo ++ "\x7d"

/-- The exact string `json_hash` (lines 140–141) digests:
`json.dumps(data, ensure_ascii=False, sort_keys=True)` for the payload of
`main`, keys in sorted order
`fonte_url < tabelas < updated_at_br < updated_at_iso`. The md5 digest
itself is not modelled; fingerprint claims are settled on this digest
input, which the digest is then applied to byte for byte. -/
def json_dumps_sorted (p : Payload) : String :=
  "\x7b\"fonte_url\": " ++ jsonStr p.fonte_url ++ ", \"tabelas\": " ++
    jsonArr (p.tabelas.map jsonBlock) ++ ", \"updated_at_br\": " ++ jsonStr p.updated_at_br ++
    ", \"updated_at_iso\": " ++ jsonStr p.updated_at_iso ++ "\x7d"

/-- Modelled from the spec: the fixed generic-leading-word set of
`groupKey` (§4.6) — no grouping code exists under `src/`; the spec's
example words ("competition", "programs", "results") are instantiated in
the content's source language. -/
def groupKeyGenericWords : List String := ["concorrência", "programas", "resultados"]

/-- Split on an em-dash or hyphen separator surrounded by spaces
(supports `groupKey`, modelled from the spec). -/
def splitSepsAux (acc : List Char) : List Char → List (List Char)
  | [] => [acc.reverse]
  | ' ' :: '—' :: ' ' :: rest => acc.reverse :: splitSepsAux [] rest
  | ' ' :: '-' :: ' ' :: rest => acc.reverse :: splitSepsAux [] rest
  | c :: rest => splitSepsAux (c :: acc) rest

/-- Segments of a title around em-dash / spaced-hyphen separators. -/
def splitSeps (l : List Char) : List (List Char) := splitSepsAux [] l

/-- A 4-digit token in the 2000s range. -/
def isYear4 : List Char → Bool
  | ['2', '0', c, d] => c.isDigit && d.isDigit
  | _ => false

/-- A year-like token: `20xx` optionally followed by `/20yy`. -/
def isYearToken (w : List Char) : Bool :=
  isYear4 w ||
    (match w with
     | a :: b :: c :: d :: '/' :: rest => isYear4 [a, b, c, d] && isYear4 rest
     | _ => false)

/-- A word character in the sense of `\w` (letters, digits, underscore;
non-ASCII letters count as word characters). -/
def isWordChar (c : Char) : Bool := c.isAlphanum || c = '_' || c.val ≥ 128

/-- Modelled from the spec: `groupKey` (§4.6) — split on an em-dash or
spaced-hyphen separator; take the first segment, or the last segment when
the first matches the fixed generic-word set and a later segment exists;
drop year-like tokens; strip leading non-word punctuation; fall back to
the original trimmed title when the result is empty. No grouping code
exists under `src/`. -/
def groupKey (title : String) : String :=
  let t := stripWs title.data
  let segs := splitSeps t
  let base0 := segs.headD t
  let base := if lowerL (stripWs base0) ∈ groupKeyGenericWords.map (fun w => w.data) ∧
      segs.length > 1 then segs.getLastD base0
    else base0
  let toks := (splitWs base).filter (fun w => !(isYearToken w))
  let s := (joinSpace toks).dropWhile (fun c => !(isWordChar c))
  if s = [] then ⟨t⟩ else ⟨s⟩

/-- A `<td>` cell holding one text node. -/
def tdCell (s : String) : Node := .elem "td" [] [.text s]

/-- A `<th>` cell holding one text node. -/
def thCell (s : String) : Node := .elem "th" [] [.text s]

/-- A `<tr>` row with the given cells. -/
def trRow (cells : List Node) : Node := .elem "tr" [] cells

/-- A row of plain `<td>` cells with the given texts. -/
def mkTdRow (r : List String) : Node := trRow (r.map tdCell)

/-- A headerless table of plain `<td>` rows. -/
def mkTdTable (rs : List (List String)) : Node := .elem "table" [] (rs.map mkTdRow)

/-- One consolidated table, for the payloads of the fingerprint claim. -/
def c1Block : Block := ⟨"HCPA", ["Programa", "Vagas"], [["Clínica Médica", "30"]]⟩

/-- A run's payload: source URL, run timestamps, tables (lines 390–395). -/
def c1PayloadA : Payload :=
  ⟨"https://med.estrategia.com/portal/residencia-medica/concorrencia-residencia-medica/",
   "2026-01-01T08:00:00-03:00", "01/01/2026 08:00", [c1Block]⟩

/-- A later run's payload with the same tables and different timestamps. -/
def c1PayloadB : Payload :=
  ⟨"https://med.estrategia.com/portal/residencia-medica/concorrencia-residencia-medica/",
   "2026-01-02T08:00:00-03:00", "02/01/2026 08:00", [c1Block]⟩

/-- A small table with an explicit header region and one data row. -/
def c2Table : Node :=
  .elem "table" []
    [.elem "thead" [] [trRow [thCell "A"]],
     .elem "tbody" [] [trRow [tdCell "x"]]]

/-- A document whose single heading contains the promotional brand name
and has a table directly beneath it. -/
def c2BrandDoc : Node :=
  .elem "body" [] [.elem "h2" [] [.text "Confira o Estratégia Med"], c2Table]

/-- A table whose `thead` says `A, B` and whose first body row repeats
exactly `A, B` as data cells. -/
def c3Table : Node :=
  .elem "table" []
    [.elem "thead" [] [trRow [thCell "A", thCell "B"]],
     .elem "tbody" [] [trRow [tdCell "A", tdCell "B"], trRow [tdCell "1", tdCell "2"]]]

/-- A button-like anchor (text matches the verb pattern, href present). -/
def c4Anchor : Node :=
  .elem "a" [("href", "https://med.example/detail")] [.text "Confira a concorrência"]

/-- A section with a navigation control but no table at all. -/
def c4MainDoc : Node :=
  .elem "body" [] [.elem "h2" [] [.text "Hospital Sem Tabela"], .elem "p" [] [c4Anchor]]

/-- A detail document with one heading-plus-table pair. -/
def c4DetailDoc : Node :=
  .elem "body" []
    [.elem "h2" [] [.text "Detalhe"],
     .elem "table" [] [.elem "thead" [] [trRow [thCell "P"]], .elem "tbody" [] [trRow [tdCell "v"]]]]

/-- A fetch capability that succeeds exactly on the button's target. -/
def c4Fetch : String → Option Node :=
  fun url => if url = "https://med.example/detail" then some c4DetailDoc else none

/-- First table of a two-table section span. -/
def c5T1 : Node := mkTdTable [["t1"]]

/-- Second table of a two-table section span. -/
def c5T2 : Node := mkTdTable [["t2"]]

/-- First button-like anchor of a section span. -/
def c5Btn1 : Node := .elem "a" [("href", "https://med.example/first")] [.text "Confira"]

/-- Second button-like anchor of a section span. -/
def c5Btn2 : Node := .elem "a" [("href", "https://med.example/second")] [.text "Acesse"]

/-- A headerless all-`td` table: first row `1, 2`, second row `3, 4`. -/
def c6Table : Node := .elem "table" [] [trRow [tdCell "1", tdCell "2"], trRow [tdCell "3", tdCell "4"]]

/-- A table whose leading `tr` has no cells, so `columns` stays empty
through the whole row loop and gets synthesized. -/
def c6SynthTable : Node :=
  .elem "table" [] [trRow [], trRow [tdCell "a", tdCell "b"], trRow [tdCell "c"]]

/-- A headerless all-`td` table: first row `x, y`, second row `1, 2`. -/
def c8Table : Node := mkTdTable [["x", "y"], ["1", "2"]]

/-- A table with a header region and one data row, for the orchestrator
witnesses. -/
def c10Table : Node :=
  .elem "table" []
    [.elem "thead" [] [trRow [thCell "C"]],
     .elem "tbody" [] [trRow [tdCell "v"]]]

/-- A one-section document contributing exactly one block. -/
def c10Doc : Node := .elem "body" [] [.elem "h2" [] [.text "Hospital X"], c10Table]

/-- Is the first character, if any, not whitespace? -/
def headNotWs (l : List Char) : Bool :=
  match l.head? with
  | some d => !isPySpace d
  | none => true

/-- Every whitespace character is a single space: each character is
either non-whitespace, or a space whose successor (if any) is
non-whitespace. -/
def wsClean : List Char → Bool
  | [] => true
  | c :: cs => ((!isPySpace c) || (c = ' ' && headNotWs cs)) && wsClean cs

/-- The last character, if any, is not whitespace. -/
def lastNotWs (l : List Char) : Bool :=
  match l.reverse.head? with
  | some c => !isPySpace c
  | none => true

/-- The last character, if any, is neither a space nor a period. -/
def lastOk (l : List Char) : Bool :=
  match l.reverse.head? with
  | some c => !(c = ' ' || c = '.')
  | none => true

/-- A title in sanitized form — no leading whitespace, every whitespace a
single space, not ending in a space or period: the invariant that
`sanitize_title` outputs satisfy, and exactly the shape under which it is
the identity. -/
def titleClean (l : List Char) : Bool := headNotWs l && wsClean l && lastOk l

/-- C1: the digest input of the Change Detector is not a function of the
tables alone — two runs with element-wise equal `tabelas` but different
run timestamps serialize (and hence digest) differently, because `main`
feeds the whole payload, `updated_at_iso`/`updated_at_br` included, to
`json_hash`. This is the evaluation of the code at the failing input of
the C1 code bug. -/
theorem c1_fingerprint_digest_input_depends_on_timestamps :
    c1PayloadA.tabelas = c1PayloadB.tabelas ∧
      json_dumps_sorted c1PayloadA ≠ json_dumps_sorted c1PayloadB := by
  decide

/-- C2 counterexample: a heading whose text contains the promotional
brand phrase ("Estratégia Med"), with a table directly beneath it,
contributes its table to the output — the claimed blocklist exclusion
does not exist in `collect_blocks_from_soup`. -/
theorem c2_brand_heading_still_contributes :
    collect_blocks_from_soup c2BrandDoc "" (fun _ => none)
      = [⟨"Confira o Estratégia Med", ["A"], [["x"]]⟩] := by
  decide

/-- C3 counterexample: in the output of `parse_html_table` on `c3Table`,
the `columns` list itself occurs as an element of `rows` — a data row
whose flattened cell texts equal `columns` is kept, not dropped. -/
theorem c3_columns_member_of_rows :
    (parse_html_table c3Table).1 ∈ (parse_html_table c3Table).2 := by
  decide

/-- C4 counterexample: a section whose span has a positively-classified
navigation control but no table contributes nothing and the Detail
Expander's non-empty result is never used — `collect_blocks_from_soup`
skips the section (`continue`) before looking at the button. -/
theorem c4_button_without_table_not_followed :
    collect_blocks_from_soup c4MainDoc "" c4Fetch = [] ∧
      collect_from_detail_page (c4Fetch "https://med.example/detail") ≠ [] := by
  decide

/-- C5 counterexample: with two direct sibling tables in a span the
recorded local table is the second (last) one, not the first; and with
two siblings each holding a button-like anchor the recorded navigation
target is the second sibling's destination, not the first's. -/
theorem c5_later_table_and_button_win :
    (scan_siblings "" none none [c5T1, c5T2]).1 = some c5T2 ∧ c5T2 ≠ c5T1 ∧
      (scan_siblings "" none none [.elem "p" [] [c5Btn1], .elem "p" [] [c5Btn2], c5T1]).2
        = some "https://med.example/second" ∧
      ("https://med.example/second" : String) ≠ "https://med.example/first" := by
  decide

/-- C6 counterexample: a headerless table whose first row is all data
(`td`) cells does not get synthesized `Col1..ColN` columns — the first
row's texts become `columns` and the row is dropped from `rows`. -/
theorem c6_first_row_becomes_columns_not_synthesized :
    parse_html_table c6Table = (["1", "2"], [["3", "4"]]) ∧
      (parse_html_table c6Table).1 ≠ mkCols 2 := by
  decide

/-- C7 counterexample: with the unsanitized parent title `"A  B"` (double
space) the prefixed result is not the claimed verbatim
`"{parentTitle} — {ownTitle}"` (the result is sanitized), and reconciling
a second time prefixes again — idempotence fails. -/
theorem c7_reconcile_not_idempotent :
    reconcile_title "A  B" "x" ≠ "A  B — x" ∧
      reconcile_title "A  B" (reconcile_title "A  B" "x") ≠ reconcile_title "A  B" "x" := by
  decide

/-- C8 counterexample: `c8Table` has no header-kind (`th`) cell at all,
yet its first data row becomes `columns` and is excluded from `rows` —
the claimed "all cells header-kind" condition is not required. -/
theorem c8_all_td_first_row_used_as_header :
    parse_html_table c8Table = (["x", "y"], [["1", "2"]]) ∧
      findAllDesc (isTag ["th"]) c8Table = [] := by
  decide

/-- C9: the stated grouping-key instance — the generic leading word and
the year token are stripped, so the split title and the bare institution
name canonicalize to the same group key. -/
theorem c9_groupKey_instance :
    groupKey "Concorrência — HCPA 2026" = groupKey "HCPA" := by
  decide

/-- C4 amended: the Detail Expander runs only for sections that also
located a local table. A section scan with no table contributes nothing
(whatever the button scan found); with a table and a button, a non-empty
expansion is appended title-reconciled and the local table is discarded,
and an empty expansion (fetch failure or no tables) falls back to the
local table, which is appended only when its parsed rows are non-empty —
in no case a hard failure. -/
theorem c4_amended (fetch : String → Option Node) (titulo url : String) (tbl : Node)
    (bl : Option String) :
    section_blocks fetch titulo none bl = [] ∧
    (collect_from_detail_page (fetch url) ≠ [] →
      section_blocks fetch titulo (some tbl) (some url)
        = prefix_titles_if_needed titulo (collect_from_detail_page (fetch url))) ∧
    (collect_from_detail_page (fetch url) = [] →
      section_blocks fetch titulo (some tbl) (some url) = local_block titulo tbl) := by
  refine ⟨rfl, fun h => ?_, fun h => ?_⟩
  · simp [section_blocks, h]
  · simp [section_blocks, h]

theorem c4_amended_witness :
    section_blocks c4Fetch "X" none none = [] ∧
    section_blocks c4Fetch "X" (some c10Table) (some "https://med.example/detail")
      = prefix_titles_if_needed "X"
          (collect_from_detail_page (c4Fetch "https://med.example/detail")) ∧
    section_blocks (fun _ => none) "X" (some c10Table) (some "u")
      = local_block "X" c10Table :=
  ⟨(c4_amended c4Fetch "X" "u" c10Table none).1,
   (c4_amended c4Fetch "X" "https://med.example/detail" c10Table none).2.1 (by decide),
   (c4_amended (fun _ => none) "X" "u" c10Table none).2.2 (by decide)⟩

/-- Monotonicity of the running maximum in `maxRowLen`. -/
theorem foldlMax_init_le (l : List (List String)) :
    ∀ a : Nat, a ≤ l.foldl (fun m r => max m r.length) a := by
  induction l with
  | nil => intro a; exact le_refl a
  | cons r l ih => intro a; exact le_trans (le_max_left a r.length) (ih (max a r.length))

theorem foldlMax_mem_le (l : List (List String)) :
    ∀ (a : Nat) (r : List String), r ∈ l → r.length ≤ l.foldl (fun m r => max m r.length) a := by
  induction l with
  | nil => intro a r hr; cases hr
  | cons s l ih =>
    intro a r hr
    rcases List.mem_cons.1 hr with h | h
    · subst h
      exact le_trans (le_max_right a r.length) (foldlMax_init_le l (max a r.length))
    · exact ih (max a s.length) r h

theorem foldlMax_eq_or (l : List (List String)) :
    ∀ a : Nat, l.foldl (fun m r => max m r.length) a = a ∨
      ∃ r ∈ l, l.foldl (fun m r => max m r.length) a = r.length := by
  induction l with
  | nil => intro a; exact Or.inl rfl
  | cons s l ih =>
    intro a
    simp only [List.foldl_cons]
    rcases ih (max a s.length) with h | ⟨r, hr, he⟩
    · rcases le_total a s.length with hle | hle
      · exact Or.inr ⟨s, List.mem_cons_self s l, by rw [h, max_eq_right hle]⟩
      · exact Or.inl (by rw [h, max_eq_left hle])
    · exact Or.inr ⟨r, List.mem_cons_of_mem s hr, he⟩

theorem mkCols_length (n : Nat) : (mkCols n).length = n := by
  simp [mkCols]

/-- C6 amended: `Col1..ColN` synthesis happens exactly when `columns` is
still empty after the whole row loop (not merely when no header-like
first row exists — a first row with cells becomes `columns` regardless of
cell kind); when it happens, `len(columns)` equals the maximum row length
over the collected rows: every row is at most that long and some row
attains it. -/
theorem c6_amended (t : Node) (h1 : (parse_core t).1 = []) (h2 : (parse_core t).2 ≠ []) :
    (parse_html_table t).1.length = maxRowLen (parse_html_table t).2 ∧
    (∀ r ∈ (parse_html_table t).2, r.length ≤ (parse_html_table t).1.length) ∧
    ∃ r ∈ (parse_html_table t).2, r.length = (parse_html_table t).1.length := by
  have hp : parse_html_table t = (mkCols (maxRowLen (parse_core t).2), (parse_core t).2) := by
    simp [parse_html_table, h1, h2]
  rw [hp]
  refine ⟨by rw [mkCols_length], fun r hr => ?_, ?_⟩
  · rw [mkCols_length]
    exact foldlMax_mem_le (parse_core t).2 0 r hr
  · rw [mkCols_length]
    rcases foldlMax_eq_or (parse_core t).2 0 with h | ⟨r, hr, he⟩
    · rcases List.exists_mem_of_ne_nil (parse_core t).2 h2 with ⟨r, hr⟩
      have hle := foldlMax_mem_le (parse_core t).2 0 r hr
      refine ⟨r, hr, ?_⟩
      unfold maxRowLen
      omega
    · exact ⟨r, hr, he.symm⟩

theorem c6_amended_witness :
    (parse_core c6SynthTable).1 = [] ∧ (parse_core c6SynthTable).2 ≠ [] ∧
    (parse_html_table c6SynthTable).1.length = maxRowLen (parse_html_table c6SynthTable).2 :=
  ⟨by decide, by decide, (c6_amended c6SynthTable (by decide) (by decide)).1⟩

/-- Rows collected by the row loop all originate from a `tr` that has
cells and is not an all-`th`, no-`td` row. -/
theorem parse_foldl_rows_origin (trs0 : List Node) :
    ∀ (l : List Node) (acc : List String × List (List String)) (r : List String),
      r ∈ (l.foldl (parse_step trs0) acc).2 →
      r ∈ acc.2 ∨ ∃ tr ∈ l, row_cells tr ≠ [] ∧
        (((findDesc (isTag ["th"]) tr).isSome && !(findDesc (isTag ["td"]) tr).isSome) = false) ∧
        r = (row_cells tr).map text_of := by
  intro l
  induction l with
  | nil => intro acc r hr; exact Or.inl hr
  | cons tr l ih =>
    intro acc r hr
    rcases ih (parse_step trs0 acc tr) r hr with hmem | ⟨tr', htr', h1, h2, h3⟩
    · by_cases hskip : ((findDesc (isTag ["th"]) tr).isSome && !(findDesc (isTag ["td"]) tr).isSome) = true
      · rw [parse_step, if_pos hskip] at hmem
        exact Or.inl hmem
      · rw [parse_step, if_neg hskip] at hmem
        by_cases htds : row_cells tr = []
        · rw [if_pos htds] at hmem
          exact Or.inl hmem
        · rw [if_neg htds] at hmem
          by_cases hcap : acc.1 = [] ∧ some tr = trs0.head?
          · rw [if_pos hcap] at hmem
            exact Or.inl hmem
          · rw [if_neg hcap] at hmem
            rcases List.mem_append.1 hmem with h | h
            · exact Or.inl h
            · have : r = (row_cells tr).map text_of := by
                simpa using h
              exact Or.inr ⟨tr, List.mem_cons_self tr l, htds,
                by rw [← Bool.not_eq_true]; exact hskip, this⟩
    · exact Or.inr ⟨tr', List.mem_cons_of_mem tr htr', h1, h2, h3⟩

theorem parse_html_table_rows (t : Node) : (parse_html_table t).2 = (parse_core t).2 := by
  by_cases h : (parse_core t).1 = [] ∧ (parse_core t).2 ≠ [] <;> simp [parse_html_table, h]

/-- C3 amended: every element of `rows` is the flattened normalized cell
text of some `tr` of the table that has at least one cell and is not an
all-header (`th`-only) row — mid-table repeated header rows are skipped —
but no comparison against `columns` is made: a data row whose texts equal
`columns` is retained, so `columns` can occur among `rows`. -/
theorem c3_amended :
    (∀ (t : Node) (r : List String), r ∈ (parse_html_table t).2 →
      ∃ tr ∈ table_trs t, row_cells tr ≠ [] ∧
        (((findDesc (isTag ["th"]) tr).isSome && !(findDesc (isTag ["td"]) tr).isSome) = false) ∧
        r = (row_cells tr).map text_of) ∧
    ∃ t : Node, (parse_html_table t).1 ∈ (parse_html_table t).2 := by
  constructor
  · intro t r hr
    rw [parse_html_table_rows] at hr
    have := parse_foldl_rows_origin (table_trs t) (table_trs t) (header_columns t, []) r
      (by simpa [parse_core] using hr)
    rcases this with h | h
    · cases h
    · exact h
  · exact ⟨mkTdTable [["z"], ["z"]], by decide⟩

theorem c3_amended_witness :
    ∃ tr ∈ table_trs c3Table, row_cells tr ≠ [] ∧
      (((findDesc (isTag ["th"]) tr).isSome && !(findDesc (isTag ["td"]) tr).isSome) = false) ∧
      (["A", "B"] : List String) = (row_cells tr).map text_of :=
  c3_amended.1 c3Table ["A", "B"] (by decide)

-- ===== C5 helpers =====
theorem scan_last_direct_table (base : String) (pre : List Node)
    (hpre : ∀ n ∈ pre, isTag ["h2", "h3"] n = false) :
    ∀ (attrs : List (String × String)) (cs : List Node) (ft : Option Node) (bl : Option String),
      (scan_siblings base ft bl (pre ++ [Node.elem "table" attrs cs])).1
        = some (.elem "table" attrs cs) := by
  induction pre with
  | nil =>
    intro attrs cs ft bl
    simp [scan_siblings]
  | cons n pre ih =>
    intro attrs cs ft bl
    have hih := ih (fun m hm => hpre m (List.mem_cons_of_mem _ hm))
    cases n with
    | text s =>
      simpa [scan_siblings] using hih attrs cs ft bl
    | elem t a cs2 =>
      have hn : ¬ (t ∈ ["h2", "h3"]) := by
        have := hpre _ (List.mem_cons_self _ _)
        simpa [isTag] using this
      simp only [List.cons_append, scan_siblings]
      rw [if_neg hn]
      exact hih attrs cs _ _

theorem scan_last_button (base : String) (pre : List Node)
    (hpre : ∀ n ∈ pre, isTag ["h2", "h3"] n = false) :
    ∀ (sib a : Node) (ft : Option Node) (bl : Option String),
      isTag ["h2", "h3"] sib = false →
      (findAllDesc (fun n => isTag ["a"] n && (getAttr n "href").isSome) sib).find?
          is_button_like = some a →
      (scan_siblings base ft bl (pre ++ [sib])).2
        = some (resolve_url ((getAttr a "href").getD "") base) := by
  induction pre with
  | nil =>
    intro sib a ft bl hsib hfind
    cases sib with
    | text s => simp [findAllDesc] at hfind
    | elem t at2 cs2 =>
      have hn : ¬ (t ∈ ["h2", "h3"]) := by simpa [isTag] using hsib
      simp only [List.nil_append, scan_siblings]
      rw [if_neg hn]
      simp [scan_siblings, hfind]
  | cons n pre ih =>
    intro sib a ft bl hsib hfind
    have hih := ih (fun m hm => hpre m (List.mem_cons_of_mem _ hm))
    cases n with
    | text s =>
      simpa [scan_siblings] using hih sib a ft bl hsib hfind
    | elem t a2 cs2 =>
      have hn : ¬ (t ∈ ["h2", "h3"]) := by
        have := hpre _ (List.mem_cons_self _ _)
        simpa [isTag] using this
      simp only [List.cons_append, scan_siblings]
      rw [if_neg hn]
      exact hih sib a _ _ hsib hfind

/-- C5 amended: within a section span the recorded local table is the
last direct-sibling table when any direct table exists (each direct table
overwrites the previous find), and the recorded navigation target is the
resolved destination of the first button-like `a[href]` inside the last
sibling that contains any button-like anchor (each such sibling
overwrites the previous link). -/
theorem c5_amended (base : String) (pre : List Node)
    (hpre : ∀ n ∈ pre, isTag ["h2", "h3"] n = false) :
    (∀ (attrs : List (String × String)) (cs : List Node) (ft : Option Node) (bl : Option String),
      (scan_siblings base ft bl (pre ++ [Node.elem "table" attrs cs])).1
        = some (.elem "table" attrs cs)) ∧
    (∀ (sib a : Node) (ft : Option Node) (bl : Option String),
      isTag ["h2", "h3"] sib = false →
      (findAllDesc (fun n => isTag ["a"] n && (getAttr n "href").isSome) sib).find?
          is_button_like = some a →
      (scan_siblings base ft bl (pre ++ [sib])).2
        = some (resolve_url ((getAttr a "href").getD "") base)) :=
  ⟨scan_last_direct_table base pre hpre, scan_last_button base pre hpre⟩

theorem c5_amended_witness :
    (scan_siblings "" none none [c5T1, Node.elem "table" [] [trRow [tdCell "w"]]]).1
      = some (.elem "table" [] [trRow [tdCell "w"]]) ∧
    (scan_siblings "" (some c5T1) none [.elem "p" [] [c5Btn2], .elem "p" [] [c5Btn1]]).2
      = some (resolve_url ((getAttr c5Btn1 "href").getD "") "") :=
  ⟨(c5_amended "" [c5T1] (by decide)).1 [] [trRow [tdCell "w"]] none none,
   (c5_amended "" [.elem "p" [] [c5Btn2]] (by decide)).2 (.elem "p" [] [c5Btn1]) c5Btn1
     (some c5T1) none (by decide) (by decide)⟩

-- ===== C2 amended =====
/-- C2 amended: no blocklist exclusion exists — a heading with any
nonempty normalized text and a table with data rows directly beneath it
contributes its table, whatever the text says. -/
theorem c2_amended (t : String) (fetch : String → Option Node)
    (h : sanitize_title (text_of (Node.elem "h2" [] [.text t])) ≠ "") :
    collect_blocks_from_soup (.elem "body" [] [.elem "h2" [] [.text t], c2Table]) "" fetch
      = [⟨sanitize_title (text_of (Node.elem "h2" [] [.text t])), ["A"], [["x"]]⟩] := by
  have hscan : scan_siblings "" none none [c2Table] = (some c2Table, none) := by decide
  have hparse : parse_html_table c2Table = (["A"], [["x"]]) := by decide
  have hsec : headingsCtxN ["h2", "h3"] (.elem "body" [] [.elem "h2" [] [.text t], c2Table])
      = [(.elem "h2" [] [.text t], [c2Table])] := by
    simp [headingsCtxN, headingsCtx, isTag, c2Table, trRow, thCell, tdCell]
  rw [collect_blocks_from_soup, hsec]
  simp [handle_section, h, hscan, section_blocks, local_block, hparse]

theorem c2_amended_witness :
    collect_blocks_from_soup
        (.elem "body" [] [.elem "h2" [] [.text "Estratégia Med 2026"], c2Table]) ""
        (fun _ => none)
      = [⟨sanitize_title (text_of (Node.elem "h2" [] [.text "Estratégia Med 2026"])),
          ["A"], [["x"]]⟩] :=
  c2_amended "Estratégia Med 2026" (fun _ => none) (by decide)

-- ===== C10 =====
theorem local_block_rows (titulo : String) (tbl : Node) (b : Block)
    (hb : b ∈ local_block titulo tbl) : b.rows ≠ [] := by
  simp only [local_block] at hb
  split at hb
  · rcases List.mem_singleton.1 hb with rfl
    assumption
  · cases hb

theorem collect_from_detail_page_rows (x : Option Node) (b : Block)
    (hb : b ∈ collect_from_detail_page x) : b.rows ≠ [] := by
  cases x with
  | none => cases hb
  | some soup =>
    simp only [collect_from_detail_page] at hb
    split at hb
    · rcases List.mem_flatMap.1 hb with ⟨hs, _, hmem⟩
      split at hmem
      · split at hmem
        · rcases List.mem_singleton.1 hmem with rfl
          assumption
        · cases hmem
      · cases hmem
    · rcases List.mem_flatMap.1 hb with ⟨it, _, hmem⟩
      split at hmem
      · cases hmem
      · rcases List.mem_singleton.1 hmem with rfl
        simp_all
  
theorem section_blocks_rows (fetch : String → Option Node) (titulo : String)
    (ft : Option Node) (bl : Option String) (b : Block)
    (hb : b ∈ section_blocks fetch titulo ft bl) : b.rows ≠ [] := by
  cases ft with
  | none => cases hb
  | some tbl =>
    cases bl with
    | none => exact local_block_rows titulo tbl b hb
    | some url =>
      simp only [section_blocks] at hb
      split at hb
      · rcases List.mem_map.1 hb with ⟨d, hd, rfl⟩
        exact collect_from_detail_page_rows _ d hd
      · exact local_block_rows titulo tbl b hb

/-- C10: every table in the final dataset has at least one row — a
normalized table with empty `rows` is never appended, on any of the three
paths (section-local table, heading-guided detail extraction, all-tables
detail fallback). -/
theorem c10_no_empty_rows (soup : Node) (base_url : String) (fetch : String → Option Node)
    (b : Block) (hb : b ∈ collect_blocks_from_soup soup base_url fetch) : b.rows ≠ [] := by
  unfold collect_blocks_from_soup at hb
  rcases List.mem_flatMap.1 hb with ⟨sec, _, hmem⟩
  simp only [handle_section] at hmem
  split at hmem
  · cases hmem
  · exact section_blocks_rows fetch _ _ _ b hmem

theorem c10_no_empty_rows_witness :
    (⟨"Hospital X", ["C"], [["v"]]⟩ : Block).rows ≠ [] :=
  c10_no_empty_rows c10Doc "" (fun _ => none) ⟨"Hospital X", ["C"], [["v"]]⟩ (by decide)

-- ===== C8 helpers =====
theorem findAllL_cells_none (r : List String) (names : List String)
    (h : ("td" : String) ∉ names) : findAllL (isTag names) (r.map tdCell) = [] := by
  induction r with
  | nil => rfl
  | cons s r ih => simp [findAllL, findAllN, tdCell, isTag, h, ih]

theorem findAllL_cells_tdth (r : List String) :
    findAllL (isTag ["td", "th"]) (r.map tdCell) = r.map tdCell := by
  induction r with
  | nil => rfl
  | cons s r ih => simp [findAllL, findAllN, tdCell, isTag, ih]

theorem findAllL_rows_none (rs : List (List String)) (names : List String)
    (htr : ("tr" : String) ∉ names) (htd : ("td" : String) ∉ names) :
    findAllL (isTag names) (rs.map mkTdRow) = [] := by
  induction rs with
  | nil => rfl
  | cons r rs ih =>
    simp [findAllL, findAllN, mkTdRow, trRow, isTag, htr, ih, findAllL_cells_none r names htd]

theorem findAllL_rows_tr (rs : List (List String)) :
    findAllL (isTag ["tr"]) (rs.map mkTdRow) = rs.map mkTdRow := by
  induction rs with
  | nil => rfl
  | cons r rs ih =>
    simp [findAllL, findAllN, mkTdRow, trRow, isTag, ih,
      findAllL_cells_none r ["tr"] (by decide)]

theorem header_columns_mkTdTable (rs : List (List String)) :
    header_columns (mkTdTable rs) = [] := by
  unfold header_columns
  rw [show findDesc (isTag ["thead"]) (mkTdTable rs)
        = (findAllL (isTag ["thead"]) (rs.map mkTdRow)).head? from rfl]
  rw [findAllL_rows_none rs ["thead"] (by decide) (by decide)]
  cases rs with
  | nil => rfl
  | cons r rs =>
    rw [show findDesc (isTag ["tr"]) (mkTdTable (r :: rs))
          = (findAllL (isTag ["tr"]) ((r :: rs).map mkTdRow)).head? from rfl]
    rw [findAllL_rows_tr]
    simp [mkTdRow, trRow, findAllDesc, findAllL_cells_none r ["th"] (by decide)]

theorem table_trs_mkTdTable (rs : List (List String)) :
    table_trs (mkTdTable rs) = rs.map mkTdRow := by
  unfold table_trs table_body
  rw [show findDesc (isTag ["tbody"]) (mkTdTable rs)
        = (findAllL (isTag ["tbody"]) (rs.map mkTdRow)).head? from rfl]
  rw [findAllL_rows_none rs ["tbody"] (by decide) (by decide)]
  exact findAllL_rows_tr rs

theorem parse_step_td (trs0 : List Node) (acc : List String × List (List String))
    (r : List String) (ha : acc.1 ≠ []) :
    parse_step trs0 acc (mkTdRow r)
      = if r = [] then acc
        else (acc.1, acc.2 ++ [r.map (fun s => text_of (tdCell s))]) := by
  have hth : findDesc (isTag ["th"]) (mkTdRow r) = none := by
    show (findAllL (isTag ["th"]) (r.map tdCell)).head? = none
    rw [findAllL_cells_none r ["th"] (by decide)]
    rfl
  have hcells : row_cells (mkTdRow r) = r.map tdCell := by
    show findAllL (isTag ["td", "th"]) (r.map tdCell) = r.map tdCell
    exact findAllL_cells_tdth r
  simp only [parse_step, hth, hcells, Option.isSome_none, Bool.false_and, if_neg,
    Bool.false_eq_true, not_false_eq_true]
  by_cases hr : r = []
  · simp [hr]
  · simp [hr, ha, List.map_map]

theorem parse_foldl_td (trs0 : List Node) (l : List (List String)) :
    ∀ (acc : List String × List (List String)), acc.1 ≠ [] →
      (l.map mkTdRow).foldl (parse_step trs0) acc
        = (acc.1, acc.2 ++ (l.filter (fun r => !r.isEmpty)).map
            (fun r => r.map (fun s => text_of (tdCell s)))) := by
  induction l with
  | nil => intro acc ha; simp
  | cons r l ih =>
    intro acc ha
    simp only [List.map_cons, List.foldl_cons]
    rw [parse_step_td trs0 acc r ha]
    by_cases hr : r = []
    · rw [if_pos hr]
      rw [ih acc ha]
      simp [hr]
    · rw [if_neg hr]
      rw [ih (acc.1, acc.2 ++ [List.map (fun s => text_of (tdCell s)) r]) ha]
      simp only [List.filter_cons]
      have : (!r.isEmpty) = true := by
        simpa [List.isEmpty_iff] using hr
      rw [this]
      simp [List.append_assoc]

/-- C8 amended: without a `thead` and without `th` cells, the first row
with cells becomes `columns` (its normalized cell texts) and is excluded
from `rows`, regardless of its cells being data-kind — all-`td` tables
never keep their first row as data. Later rows are kept (empty-cell rows
skipped), unconditionally on their content. -/
theorem c8_amended (r1 : List String) (rs : List (List String)) (h : r1 ≠ []) :
    parse_html_table (mkTdTable (r1 :: rs))
      = (r1.map (fun s => text_of (tdCell s)),
         (rs.filter (fun r => !r.isEmpty)).map
           (fun r => r.map (fun s => text_of (tdCell s)))) := by
  have hcore : parse_core (mkTdTable (r1 :: rs))
      = (r1.map (fun s => text_of (tdCell s)),
         (rs.filter (fun r => !r.isEmpty)).map
           (fun r => r.map (fun s => text_of (tdCell s)))) := by
    unfold parse_core
    rw [table_trs_mkTdTable, header_columns_mkTdTable]
    simp only [List.map_cons, List.foldl_cons]
    have hth : findDesc (isTag ["th"]) (mkTdRow r1) = none := by
      show (findAllL (isTag ["th"]) (r1.map tdCell)).head? = none
      rw [findAllL_cells_none r1 ["th"] (by decide)]
      rfl
    have hcells : row_cells (mkTdRow r1) = r1.map tdCell := findAllL_cells_tdth r1
    have hstep : parse_step (mkTdRow r1 :: rs.map mkTdRow) ([], ([] : List (List String)))
        (mkTdRow r1) = (r1.map (fun s => text_of (tdCell s)), []) := by
      simp [parse_step, hth, hcells, h, List.map_map]
    rw [hstep]
    rw [parse_foldl_td (mkTdRow r1 :: rs.map mkTdRow) rs
      (r1.map (fun s => text_of (tdCell s)), []) (by simpa using h)]
    simp
  have hne : r1.map (fun s => text_of (tdCell s)) ≠ [] := by simpa using h
  simp [parse_html_table, hcore, hne]

theorem c8_amended_witness :
    parse_html_table (mkTdTable [["x2", "y2"], ["12", "22"]])
      = (["x2", "y2"].map (fun s => text_of (tdCell s)),
         ([["12", "22"]].filter (fun r => !r.isEmpty)).map
           (fun r => r.map (fun s => text_of (tdCell s)))) :=
  c8_amended ["x2", "y2"] [["12", "22"]] (by decide)

-- ===== C7 string lemmas =====
theorem head_dropWhile_false (p : Char → Bool) :
    ∀ (l : List Char) (c : Char), (l.dropWhile p).head? = some c → p c = false := by
  intro l
  induction l with
  | nil => intro c h; simp at h
  | cons a l ih =>
    intro c h
    by_cases hp : p a = true
    · rw [List.dropWhile_cons_of_pos hp] at h
      exact ih c h
    · rw [List.dropWhile_cons_of_neg hp] at h
      simp at h
      rw [← h]
      simpa using hp

theorem headNotWs_stripWs (l : List Char) : headNotWs (stripWs l) = true := by
  rcases hs : stripWs l with _ | ⟨c, rest⟩
  · rfl
  · have hpre : stripWs l <+: l.dropWhile isPySpace := List.rdropWhile_prefix _ _
    rw [hs] at hpre
    rcases hpre with ⟨tl, htl⟩
    have : (l.dropWhile isPySpace).head? = some c := by rw [← htl]; rfl
    have hc := head_dropWhile_false isPySpace _ c this
    simp [headNotWs, hc]

theorem lastNotWs_stripWs (l : List Char) : lastNotWs (stripWs l) = true := by
  unfold lastNotWs
  have hrev : (stripWs l).reverse = (l.dropWhile isPySpace).reverse.dropWhile isPySpace := by
    unfold stripWs List.rdropWhile
    rw [List.reverse_reverse]
  rw [hrev]
  rcases hh : ((l.dropWhile isPySpace).reverse.dropWhile isPySpace).head? with _ | c
  · rfl
  · simp [head_dropWhile_false isPySpace _ c hh]

theorem collapse_head_not_ws (l : List Char) (c : Char) :
    (collapseAux l true).head? = some c → isPySpace c = false := by
  induction l with
  | nil => intro h; simp [collapseAux] at h
  | cons a l ih =>
    intro h
    by_cases ha : isPySpace a = true
    · rw [collapseAux, if_pos ha, if_pos rfl] at h
      exact ih h
    · rw [collapseAux, if_neg ha] at h
      simp at h
      rw [← h]
      simpa using ha

theorem headNotWs_collapse_true (l : List Char) : headNotWs (collapseAux l true) = true := by
  unfold headNotWs
  rcases hh : (collapseAux l true).head? with _ | c
  · rfl
  · simp [collapse_head_not_ws l c hh]

theorem wsClean_collapseAux (l : List Char) : ∀ b, wsClean (collapseAux l b) = true := by
  induction l with
  | nil => intro b; rfl
  | cons c cs ih =>
    intro b
    by_cases hc : isPySpace c = true
    · rw [collapseAux, if_pos hc]
      by_cases hb : b = true
      · rw [if_pos hb]; exact ih true
      · rw [if_neg hb]
        simp [wsClean, headNotWs_collapse_true cs, ih true]
    · rw [collapseAux, if_neg hc]
      simp [wsClean, hc, ih false]

theorem headNotWs_collapseWs (l : List Char) (h : headNotWs l = true) :
    headNotWs (collapseWs l) = true := by
  cases l with
  | nil => rfl
  | cons c cs =>
    have hc : isPySpace c = false := by simpa [headNotWs] using h
    unfold collapseWs
    rw [collapseAux, if_neg (by simp [hc])]
    simp [headNotWs, hc]

theorem headNotWs_of_leading {w v : List Char} (hpre : w <+: v) (h : headNotWs v = true) :
    headNotWs w = true := by
  cases w with
  | nil => rfl
  | cons c rest =>
    rcases hpre with ⟨tl, htl⟩
    have : v.head? = some c := by rw [← htl]; rfl
    unfold headNotWs at h ⊢
    rw [this] at h
    simpa using h

theorem wsClean_append_left (xs ys : List Char) (h : wsClean (xs ++ ys) = true) :
    wsClean xs = true := by
  induction xs with
  | nil => rfl
  | cons c xs ih =>
    rw [List.cons_append, wsClean, Bool.and_eq_true] at h
    rw [wsClean, Bool.and_eq_true]
    refine ⟨?_, ih h.2⟩
    cases hws : isPySpace c with
    | false => simp [hws]
    | true =>
      have h1 := h.1
      rw [hws] at h1
      simp at h1
      rcases h1 with ⟨hc, hh⟩
      simp only [hws, hc, Bool.not_true, Bool.false_or, Bool.true_and, if_true]
      cases xs with
      | nil => rfl
      | cons d xs2 => simpa [headNotWs] using hh

theorem lastOk_rstripDotSpace (v : List Char) : lastOk (rstripDotSpace v) = true := by
  unfold lastOk
  have hrev : (rstripDotSpace v).reverse
      = v.reverse.dropWhile (fun c => c = ' ' || c = '.') := by
    unfold rstripDotSpace List.rdropWhile
    rw [List.reverse_reverse]
  rw [hrev]
  rcases hh : (v.reverse.dropWhile (fun c => c = ' ' || c = '.')).head? with _ | c
  · rfl
  · simp [head_dropWhile_false _ _ c hh]

/-- Outputs of `sanitize_title` are in sanitized form. -/
theorem titleClean_sanitize (l : List Char) : titleClean (sanitize_titleL l) = true := by
  unfold titleClean sanitize_titleL
  have hv1 : headNotWs (collapseWs (stripWs l)) = true :=
    headNotWs_collapseWs _ (headNotWs_stripWs l)
  have hv2 : wsClean (collapseWs (stripWs l)) = true := wsClean_collapseAux _ false
  have hpre : rstripDotSpace (collapseWs (stripWs l)) <+: collapseWs (stripWs l) :=
    List.rdropWhile_prefix _ _
  rcases hpre with ⟨tl, htl⟩
  rw [Bool.and_eq_true, Bool.and_eq_true]
  refine ⟨⟨headNotWs_of_leading ⟨tl, htl⟩ hv1, ?_⟩, lastOk_rstripDotSpace _⟩
  exact wsClean_append_left _ tl (by rw [htl]; exact hv2)

theorem wsClean_mem_space (l : List Char) (h : wsClean l = true) :
    ∀ c ∈ l, isPySpace c = true → c = ' ' := by
  induction l with
  | nil => intro c hc; cases hc
  | cons a l ih =>
    rw [wsClean, Bool.and_eq_true] at h
    intro c hc hws
    rcases List.mem_cons.1 hc with rfl | hc
    · have h1 := h.1
      rw [hws] at h1
      simp at h1
      exact h1.1
    · exact ih h.2 c hc hws

theorem lastNotWs_of_clean (l : List Char) (hw : wsClean l = true) (ho : lastOk l = true) :
    lastNotWs l = true := by
  unfold lastNotWs
  rcases hh : l.reverse.head? with _ | c
  · rfl
  · have hc : c ∈ l := by
      have := List.mem_of_mem_head? hh
      simpa using this
    unfold lastOk at ho
    rw [hh] at ho
    by_cases hws : isPySpace c = true
    · have := wsClean_mem_space l hw c hc hws
      rw [this] at ho
      simp at ho
    · simp [hws]

theorem dropWhile_id_of_headNotWs (l : List Char) (h : headNotWs l = true) :
    l.dropWhile isPySpace = l := by
  cases l with
  | nil => rfl
  | cons c cs =>
    have hc : isPySpace c = false := by simpa [headNotWs] using h
    rw [List.dropWhile_cons_of_neg (by simp [hc])]

theorem rdropWhile_id_of_last (p : Char → Bool) (l : List Char)
    (h : ∀ c, l.reverse.head? = some c → p c = false) : l.rdropWhile p = l := by
  unfold List.rdropWhile
  rcases hr : l.reverse with _ | ⟨c, rest⟩
  · simp at hr
    simp [hr]
  · have hc := h c (by rw [hr]; rfl)
    rw [List.dropWhile_cons, if_neg (by simp [hc]), ← hr, List.reverse_reverse]

theorem collapse_id_of_clean (l : List Char) :
    ∀ b, wsClean l = true → (b = true → headNotWs l = true) → collapseAux l b = l := by
  induction l with
  | nil => intro b _ _; rfl
  | cons c cs ih =>
    intro b hw hb
    rw [wsClean, Bool.and_eq_true] at hw
    by_cases hc : isPySpace c = true
    · have hb' : b = false := by
        cases b with
        | false => rfl
        | true =>
          have := hb rfl
          simp [headNotWs, hc] at this
      subst hb'
      have h1 := hw.1
      rw [hc] at h1
      simp at h1
      rw [collapseAux, if_pos hc, if_neg (by simp)]
      rw [h1.1]
      rw [ih true hw.2 (fun _ => h1.2)]
    · rw [collapseAux, if_neg hc]
      rw [ih false hw.2 (by simp)]

/-- On sanitized-form titles, `sanitize_title` is the identity. -/
theorem sanitize_id_of_clean (l : List Char) (h : titleClean l = true) :
    sanitize_titleL l = l := by
  unfold titleClean at h
  rw [Bool.and_eq_true, Bool.and_eq_true] at h
  obtain ⟨⟨h1, h2⟩, h3⟩ := h
  have hlast := lastNotWs_of_clean l h2 h3
  unfold sanitize_titleL stripWs
  rw [dropWhile_id_of_headNotWs l h1]
  rw [rdropWhile_id_of_last isPySpace l ?hl]
  case hl =>
    intro c hc
    unfold lastNotWs at hlast
    rw [hc] at hlast
    simpa using hlast
  rw [show collapseWs l = l from collapse_id_of_clean l false h2 (by simp)]
  exact rdropWhile_id_of_last _ l (fun c hc => by
    unfold lastOk at h3
    rw [hc] at h3
    simpa using h3)

theorem wsClean_append_sep (t : List Char) (hth : headNotWs t = true) (htw : wsClean t = true) :
    ∀ p : List Char, wsClean p = true → lastNotWs p = true →
      wsClean (p ++ ' ' :: '—' :: ' ' :: t) = true := by
  have hdash : isPySpace '—' = false := by decide
  have hsp : isPySpace ' ' = true := by decide
  intro p
  induction p with
  | nil =>
    intro _ _
    rw [List.nil_append]
    rw [wsClean, Bool.and_eq_true]
    constructor
    · simp [headNotWs, hdash, hsp]
    · rw [wsClean, Bool.and_eq_true]
      constructor
      · simp [hdash]
      · rw [wsClean, Bool.and_eq_true]
        exact ⟨by simp [hsp, hth], htw⟩
  | cons a p ih =>
    intro hw hl
    rw [wsClean, Bool.and_eq_true] at hw
    have hlp : lastNotWs p = true := by
      cases p with
      | nil => rfl
      | cons b p' =>
        unfold lastNotWs at hl ⊢
        rw [List.reverse_cons, List.head?_append_of_ne_nil _ (by simp)] at hl
        exact hl
    rw [List.cons_append, wsClean, Bool.and_eq_true]
    refine ⟨?_, ih hw.2 hlp⟩
    cases hws : isPySpace a with
    | false => simp [hws]
    | true =>
      have h1 := hw.1
      rw [hws] at h1
      simp at h1
      rcases h1 with ⟨ha, hh⟩
      cases p with
      | nil =>
        unfold lastNotWs at hl
        rw [ha] at hl
        simp [hsp] at hl
      | cons d p' =>
        simp only [hws, ha, List.cons_append]
        simpa [headNotWs] using hh

theorem titleClean_append_sep (p t : List Char) (hp : titleClean p = true)
    (ht : titleClean t = true) (hpne : p ≠ []) (htne : t ≠ []) :
    titleClean (p ++ ' ' :: '—' :: ' ' :: t) = true := by
  unfold titleClean at hp ht ⊢
  rw [Bool.and_eq_true, Bool.and_eq_true] at hp ht
  obtain ⟨⟨hp1, hp2⟩, hp3⟩ := hp
  obtain ⟨⟨ht1, ht2⟩, ht3⟩ := ht
  rw [Bool.and_eq_true, Bool.and_eq_true]
  refine ⟨⟨?_, ?_⟩, ?_⟩
  · cases p with
    | nil => exact absurd rfl hpne
    | cons c p' => simpa [headNotWs] using hp1
  · exact wsClean_append_sep t ht1 ht2 p hp2 (lastNotWs_of_clean p hp2 hp3)
  · unfold lastOk at ht3 ⊢
    rw [List.reverse_append]
    rw [List.head?_append_of_ne_nil _ (by simp : (' ' :: '—' :: ' ' :: t).reverse ≠ [])]
    have h4 : (' ' :: '—' :: ' ' :: t).reverse = t.reverse ++ [' ', '—', ' '] := by simp
    rw [h4, List.head?_append_of_ne_nil _ (by simpa using htne)]
    exact ht3

theorem reconcile_eval (p t : String) :
    reconcile_title p t
      = ⟨sanitize_titleL (if lowerL p.data ≠ [] ∧
            ¬ (lowerL p.data <:+: lowerL (if t = "" then p.data else t.data))
          then p.data ++ ' ' :: '—' :: ' ' :: (if t = "" then p.data else t.data)
          else (if t = "" then p.data else t.data))⟩ := rfl

theorem str_ne_empty_of_data (s : String) (h : s.data ≠ []) : s ≠ "" :=
  fun he => h (by rw [he])

theorem str_mk_eq_self (s : String) : (⟨s.data⟩ : String) = s := rfl

/-- C7 amended: the reconciled title is `sanitize_title` of the prefixed
string, not the raw concatenation; reconciliation is idempotent whenever
both the parent title and the block title are fixed points of
`sanitize_title` — as every title the orchestrator passes is, since
headings and reconciled titles alike are produced by `sanitize_title`. -/
theorem c7_amended (p t : String) (hp : sanitize_title p = p) (ht : sanitize_title t = t) :
    reconcile_title p (reconcile_title p t) = reconcile_title p t := by
  have hpd : sanitize_titleL p.data = p.data := congrArg String.data hp
  have htd : sanitize_titleL t.data = t.data := congrArg String.data ht
  have hpc : titleClean p.data = true := by rw [← hpd]; exact titleClean_sanitize p.data
  have htc : titleClean t.data = true := by rw [← htd]; exact titleClean_sanitize t.data
  by_cases hpe : p.data = []
  · -- empty parent: the prefix branch is never taken
    have hpt : ¬ (lowerL p.data ≠ [] ∧
        ¬ (lowerL p.data <:+: lowerL (if t = "" then p.data else t.data))) := by
      rw [hpe]
      simp [lowerL]
    by_cases hte : t = ""
    · have hq : reconcile_title p t = "" := by
        rw [reconcile_eval, if_neg hpt, if_pos hte, hpe]
        rfl
      rw [hq]
      have hpt2 : ¬ (lowerL p.data ≠ [] ∧
          ¬ (lowerL p.data <:+: lowerL (if ("" : String) = "" then p.data else ("" : String).data))) := by
        rw [hpe]; simp [lowerL]
      rw [reconcile_eval, if_neg hpt2, if_pos rfl, hpe]
      rfl
    · have hq : reconcile_title p t = t := by
        rw [reconcile_eval, if_neg hpt, if_neg hte, htd, str_mk_eq_self]
      rw [hq]
      exact hq
  · -- nonempty parent
    have hptne : lowerL p.data ≠ [] := by simpa [lowerL] using hpe
    have hpne' : p ≠ "" := str_ne_empty_of_data p hpe
    by_cases hte : t = ""
    · -- empty own title: the parent title is used and already contains itself
      have hcond : ¬ (lowerL p.data ≠ [] ∧
          ¬ (lowerL p.data <:+: lowerL (if t = "" then p.data else t.data))) := by
        rw [if_pos hte]
        exact fun hh => hh.2 (List.infix_refl _)
      have hq : reconcile_title p t = p := by
        rw [reconcile_eval, if_neg hcond, if_pos hte, hpd, str_mk_eq_self]
      rw [hq]
      have hcond2 : ¬ (lowerL p.data ≠ [] ∧
          ¬ (lowerL p.data <:+: lowerL (if p = "" then p.data else p.data))) := by
        exact fun hh => hh.2 (by rw [if_neg hpne'])
      rw [reconcile_eval, if_neg hcond2, if_neg hpne', hpd]
    · -- nonempty own title
      have hted : t.data ≠ [] := fun hh => hte (by
        have : t = ⟨[]⟩ := String.ext hh
        simpa using this)
      by_cases hin : lowerL p.data <:+: lowerL t.data
      · have hcond : ¬ (lowerL p.data ≠ [] ∧
            ¬ (lowerL p.data <:+: lowerL (if t = "" then p.data else t.data))) := by
          rw [if_neg hte]
          exact fun hh => hh.2 hin
        have hq : reconcile_title p t = t := by
          rw [reconcile_eval, if_neg hcond, if_neg hte, htd, str_mk_eq_self]
        rw [hq]
        exact hq
      · -- the prefixing case
        have hcond : (lowerL p.data ≠ [] ∧
            ¬ (lowerL p.data <:+: lowerL (if t = "" then p.data else t.data))) := by
          rw [if_neg hte]
          exact ⟨hptne, hin⟩
        have hclean : titleClean (p.data ++ ' ' :: '—' :: ' ' :: t.data) = true :=
          titleClean_append_sep p.data t.data hpc htc hpe hted
        have hq : reconcile_title p t = ⟨p.data ++ ' ' :: '—' :: ' ' :: t.data⟩ := by
          rw [reconcile_eval, if_pos hcond, if_neg hte]
          rw [sanitize_id_of_clean _ hclean]
        rw [hq]
        have hqne : (⟨p.data ++ ' ' :: '—' :: ' ' :: t.data⟩ : String) ≠ "" := by
          apply str_ne_empty_of_data
          show p.data ++ ' ' :: '—' :: ' ' :: t.data ≠ []
          simp
        have hinfix : lowerL p.data <:+: lowerL (p.data ++ ' ' :: '—' :: ' ' :: t.data) := by
          unfold lowerL
          rw [List.map_append]
          exact (List.prefix_append _ _).isInfix
        have hcond2 : ¬ (lowerL p.data ≠ [] ∧
            ¬ (lowerL p.data <:+: lowerL
              (if (⟨p.data ++ ' ' :: '—' :: ' ' :: t.data⟩ : String) = ""
               then p.data
               else (⟨p.data ++ ' ' :: '—' :: ' ' :: t.data⟩ : String).data))) := by
          rw [if_neg hqne]
          exact fun hh => hh.2 hinfix
        rw [reconcile_eval, if_neg hcond2, if_neg hqne]
        rw [show (⟨p.data ++ ' ' :: '—' :: ' ' :: t.data⟩ : String).data
              = p.data ++ ' ' :: '—' :: ' ' :: t.data from rfl]
        rw [sanitize_id_of_clean _ hclean]

theorem c7_amended_witness :
    reconcile_title "HCPA" (reconcile_title "HCPA" "Vagas 2026")
      = reconcile_title "HCPA" "Vagas 2026" :=
  c7_amended "HCPA" "Vagas 2026" (by decide) (by decide)
